import Mathlib

/-!
# go-git-tui: paged history loading and the commit carousel

A shallow embedding of `internal/git/repository.go`, `internal/model/model.go`,
`internal/ui/carousel.go`, `internal/ui/commit_box.go` and
`internal/ui/gradient_line.go`.

Conventions.
* Go `int` is `Int` holding a 64-bit value; Go's `/` on `int` truncates toward
  zero and is `Int.tdiv`. Where an operand is an argument of the caller the
  result is wrapped to 64 bits (`wrapInt64`); the other sums and differences
  are between a slice length, a cursor inside it and a count of cards, which
  cannot leave the range.
* Go strings that the program only slices on ASCII data (hex hashes, colours)
  are `String`, sliced on their character list.
* Go maps are association lists; a map used as a set is a list of keys.
* Pointer receivers that mutate become functions returning the new value.
* The version-control backend (go-git) and the styling backend (lipgloss) are
  outside the repository: the commit iterator is data handed to the code, and
  a styled segment is represented by the colour it is styled with.
-/

namespace GoGitTui

/-! ## internal/git/repository.go : data model -/

/-- The anonymous `Stats` struct inside `CommitInfo`. -/
structure CommitStats where
  Additions : Int
  Deletions : Int
  Files : Int
  deriving DecidableEq, Repr

/-- The record `CommitInfo`; `Date` is kept as a number of seconds. -/
structure CommitInfo where
  Hash : String
  ShortHash : String
  Author : String
  AuthorEmail : String
  Committer : String
  CommitEmail : String
  Message : String
  FullMessage : String
  Date : Int
  Color : String
  ParentHashes : List String
  Branches : List String
  Tags : List String
  Stats : CommitStats
  deriving DecidableEq, Repr

/-- The zero value `git.CommitInfo{}`. -/
def CommitInfo.zero : CommitInfo :=
  { Hash := "", ShortHash := "", Author := "", AuthorEmail := "", Committer := "",
    CommitEmail := "", Message := "", FullMessage := "", Date := 0, Color := "",
    ParentHashes := [], Branches := [], Tags := [],
    Stats := { Additions := 0, Deletions := 0, Files := 0 } }

/-- The parts of go-git's `object.Signature` that the code reads. -/
structure Signature where
  Name : String
  Email : String
  When : Int
  deriving DecidableEq, Repr

/-- One entry of the result of `c.Stats()`. -/
structure FileStat where
  Addition : Int
  Deletion : Int
  deriving DecidableEq, Repr

/-- The parts of go-git's `object.Commit` that `LoadCommits` reads. `Hash` and
`ParentHashes` hold the `String()` form, which go-git always renders as 40 hex
digits; `Stats` is the result of `c.Stats()`, whose error the code discards. -/
structure Commit where
  Hash : String
  Author : Signature
  Committer : Signature
  Message : String
  ParentHashes : List String
  Stats : List FileStat
  deriving DecidableEq, Repr

/-- What go-git's commit iterator will do when it is driven: yield `entries`
in order and then end, normally or with the error `failure`. -/
structure CommitIter where
  entries : List Commit
  failure : Option String
  deriving DecidableEq, Repr

/-- The iterator method `ForEach` of go-git: every entry is passed to the
callback until the callback returns an error, which is returned at once; when
the entries run out the iterator's own error, if any, is returned. -/
def CommitIter.forEachFrom {σ : Type} (cb : σ → Commit → σ × Option String)
    (failure : Option String) : List Commit → σ → σ × Option String
  | [], s => (s, failure)
  | c :: cs, s =>
    match cb s c with
    | (s1, none) => CommitIter.forEachFrom cb failure cs s1
    | (s1, some e) => (s1, some e)

def CommitIter.ForEach {σ : Type} (it : CommitIter) (cb : σ → Commit → σ × Option String)
    (s : σ) : σ × Option String :=
  CommitIter.forEachFrom cb it.failure it.entries s

/-- Go's `s[:n]` on a string of one-byte characters. The code applies it to
hash strings only, which are 40 characters long, so the bound is never
exceeded there; on a shorter string the model keeps what there is. -/
def strTake (s : String) (n : Nat) : String := String.mk (s.data.take n)

/-- Value of a hexadecimal digit. -/
def hexDigitValue (c : Char) : Option Nat :=
  if '0' ≤ c ∧ c ≤ '9' then some (c.toNat - '0'.toNat)
  else if 'a' ≤ c ∧ c ≤ 'f' then some (c.toNat - 'a'.toNat + 10)
  else if 'A' ≤ c ∧ c ≤ 'F' then some (c.toNat - 'A'.toNat + 10)
  else none

/-- The bytes `hex.DecodeString` returns next to its error: the pairs of
hexadecimal digits decoded before the first character that is not one, or
before a trailing single character. -/
def decodeHexPairs : List Char → List Nat
  | a :: b :: rest =>
    match hexDigitValue a, hexDigitValue b with
    | some x, some y => (16 * x + y) :: decodeHexPairs rest
    | _, _ => []
  | _ => []

/-- The lower-case hexadecimal digit of a value below 16. -/
def hexDigitChar (d : Nat) : Char := "0123456789abcdef".data.getD d '0'

/-- The string form of the zero hash. -/
def zeroHash : String := String.mk (List.replicate 40 '0')

/-- The string form of `plumbing.NewHash(s)`: the decoded bytes of `s` are
copied into a hash of 20 zero bytes, which is printed as 40 hexadecimal
digits. On a string of 40 lower-case hexadecimal digits it is the identity. -/
def NewHash (s : String) : String :=
  let bytes := (decodeHexPairs s.data).take 20
  let bytes := bytes ++ List.replicate (20 - bytes.length) 0
  String.mk (bytes.flatMap (fun b => [hexDigitChar (b / 16), hexDigitChar (b % 16)]))

/-- The state `commitCache`: `commits` maps a hash to its record. -/
structure commitCache where
  commits : List (String × CommitInfo)
  pages : List (List String)
  pageSize : Int
  deriving DecidableEq, Repr

def newCommitCache (pageSize : Int) : commitCache :=
  { commits := [], pages := [], pageSize := pageSize }

/-- The map assignment `m[k] = v`. -/
def mapSet {β : Type} (m : List (String × β)) (k : String) (v : β) : List (String × β) :=
  (k, v) :: m.filter (fun e => e.1 ≠ k)

/-- The map read `v, ok := m[k]`. -/
def mapGet {β : Type} (m : List (String × β)) (k : String) : Option β :=
  (m.find? (fun e => e.1 = k)).map Prod.snd

/-- The state `Repository`. `log start` is what `r.repo.Log` with `From: start`
and committer-time order returns: an iterator or an error. `branches` and
`tags` map a short reference name to the hash it points at. -/
structure Repository where
  log : String → Except String CommitIter
  cache : commitCache
  head : String
  branches : List (String × String)
  tags : List (String × String)

/-- The local state of the callback in `LoadCommits`. -/
structure LoadState where
  commits : List CommitInfo
  hasMore : Bool
  seen : List String
  count : Int
  deriving DecidableEq, Repr

/-- The record that the callback of `LoadCommits` builds for one commit. The
names in `Branches` and `Tags` come out in map iteration order in Go, which is
unspecified; here it is the order of the association list. -/
def Repository.commitInfoOf (r : Repository) (c : Commit) : CommitInfo :=
  let hash := c.Hash
  let additions := (c.Stats.map FileStat.Addition).sum
  let deletions := (c.Stats.map FileStat.Deletion).sum
  let parentHashes := c.ParentHashes.map (fun h => strTake h 7)
  { Hash := hash,
    ShortHash := strTake hash 7,
    Author := c.Author.Name,
    AuthorEmail := c.Author.Email,
    Committer := c.Committer.Name,
    CommitEmail := c.Committer.Email,
    Message := c.Message,
    FullMessage := c.Message,
    Date := c.Author.When,
    Color := "#" ++ strTake hash 6,
    ParentHashes := parentHashes,
    Branches := (r.branches.filter (fun e => e.2 = c.Hash)).map Prod.fst,
    Tags := (r.tags.filter (fun e => e.2 = c.Hash)).map Prod.fst,
    Stats := { Additions := additions, Deletions := deletions,
               Files := (c.Stats.length : Int) } }

/-- The callback that `LoadCommits` passes to `ForEach`. -/
def Repository.loadCallback (r : Repository) (limit : Int) (s : LoadState) (c : Commit) :
    LoadState × Option String :=
  if s.count ≥ limit then
    ({ s with hasMore := true }, some "limit reached")
  else
    let hash := c.Hash
    if s.seen.contains hash then (s, none)
    else
      let s := { s with seen := hash :: s.seen }
      let commit := r.commitInfoOf c
      ({ s with commits := s.commits ++ [commit], count := s.count + 1 }, none)

/-- The loop `for _, commit := range commits` that writes a page into the cache. -/
def commitCache.storeAll (cache : commitCache) (commits : List CommitInfo) : commitCache :=
  commits.foldl (fun m commit => { m with commits := mapSet m.commits commit.Hash commit }) cache

/-- The method `LoadCommits`. The result carries the repository with its
updated cache. A negative `limit` makes `make([]CommitInfo, 0, limit)` panic,
which is reported as an error here. -/
def Repository.LoadCommits (r : Repository) (startHash : String) (limit : Int) :
    Except String (List CommitInfo × Bool × Repository) :=
  let start := if startHash ≠ "" then NewHash startHash else r.head
  if limit < 0 then .error "panic: runtime error: makeslice: cap out of range"
  else
    match r.log start with
    | .error e => .error ("failed to get commit iterator: " ++ e)
    | .ok cIter =>
      let s0 : LoadState := { commits := [], hasMore := false, seen := [], count := 0 }
      let (s, err) := cIter.ForEach (r.loadCallback limit) s0
      match err.filter (fun e => e ≠ "limit reached") with
      | some e => .error ("failed to iterate commits: " ++ e)
      | none =>
        .ok (s.commits, s.hasMore, { r with cache := r.cache.storeAll s.commits })

/-- The method `GetCommitByHash`. -/
def Repository.GetCommitByHash (r : Repository) (hash : String) :
    Except String (CommitInfo × Repository) :=
  match mapGet r.cache.commits hash with
  | some commit => .ok (commit, r)
  | none =>
    match r.LoadCommits hash 1 with
    | .error e => .error e
    | .ok (commits, _, r1) =>
      match commits with
      | [] => .error "commit not found"
      | c :: _ => .ok (c, r1)

/-- A history whose traversal from its head is the fixed sequence `history`,
as go-git presents it: a walk from the zero hash starts at the head, a walk
started at a commit yields that commit first and then the commits after it,
and a start that is not in the history is an error. That the start commit
comes first is what `GetCommitByHash` relies on when it takes the first record
of `LoadCommits(hash, 1)` as the commit named `hash`. -/
def linearLog (history : List Commit) (start : String) : Except String CommitIter :=
  match (if start = zeroHash then history.head?.map Commit.Hash else some start) with
  | none => .error "reference not found"
  | some h =>
    match history.dropWhile (fun c => c.Hash ≠ h) with
    | [] => .error "object not found"
    | c :: cs => .ok { entries := c :: cs, failure := none }

/-- A repository over a linear history, as `git.New` sets it up: the head is
the first commit of the traversal and the cache is empty. -/
def linearRepository (history : List Commit) : Repository :=
  { log := linearLog history,
    cache := newCommitCache 20,
    head := (history.head?.map Commit.Hash).getD "",
    branches := [],
    tags := [] }

/-- The identities of a sequence, each kept at its first occurrence only. -/
def distinctInOrder : List String → List String
  | [] => []
  | h :: hs => h :: (distinctInOrder hs).filter (fun x => x ≠ h)

/-! ## internal/ui/commit_box.go -/

/-- Fixed width for commit boxes. -/
def boxWidth : Int := 40

/-- Fixed height including both top and bottom borders. -/
def boxHeight : Int := 10

/-- Line where the dot appears (0-based). -/
def dotLine : Int := 7

/-- The value `CommitBox`. -/
structure CommitBox where
  commit : CommitInfo
  selected : Bool
  deriving DecidableEq, Repr

def NewCommitBox (commit : CommitInfo) (selected : Bool) : CommitBox :=
  { commit := commit, selected := selected }

def CommitBox.GetWidth (_c : CommitBox) : Int := boxWidth

def CommitBox.GetHeight (_c : CommitBox) : Int := boxHeight

def CommitBox.GetDotLine (_c : CommitBox) : Int := dotLine

/-! ## internal/ui/carousel.go -/

/-- The state `CommitCarousel`. -/
structure CommitCarousel where
  commits : List CommitInfo
  cursor : Int
  width : Int
  height : Int
  maxVisible : Int
  selectedIdx : Int
  loading : Bool
  deriving DecidableEq, Repr

/-- Go's `len(c.commits)`. -/
def CommitCarousel.len (c : CommitCarousel) : Int := (c.commits.length : Int)

/-- The constructor `NewCommitCarousel`: the fields it does not name are zero. -/
def NewCommitCarousel : CommitCarousel :=
  { commits := [], cursor := 0, width := 0, height := 0, maxVisible := 0,
    selectedIdx := 0, loading := false }

/-- The value a 64-bit Go `int` holds after an operation whose exact result is
`x`: the representative of `x` modulo `2^64` in `[-2^63, 2^63)`. -/
def wrapInt64 (x : Int) : Int :=
  (x + 9223372036854775808) % 18446744073709551616 - 9223372036854775808

/-- The method `UpdateSize`. -/
def CommitCarousel.UpdateSize (c : CommitCarousel) (width height : Int) : CommitCarousel :=
  let c := { c with width := width, height := height }
  let sampleBox := NewCommitBox CommitInfo.zero false
  let boxWidth := sampleBox.GetWidth
  let minSpacing : Int := 15
  let availableWidth := wrapInt64 (width - minSpacing)
  let c := { c with maxVisible := availableWidth.tdiv (boxWidth + minSpacing) }
  let c := if c.maxVisible < 1 then { c with maxVisible := 1 } else c
  let maxCursor := c.len - c.maxVisible
  let maxCursor := if maxCursor < 0 then 0 else maxCursor
  if c.cursor > maxCursor then { c with cursor := maxCursor } else c

/-- The method `ScrollLeft`. -/
def CommitCarousel.ScrollLeft (c : CommitCarousel) : CommitCarousel :=
  if c.cursor > 0 then
    let c := { c with cursor := c.cursor - 1 }
    if c.selectedIdx > c.cursor then { c with selectedIdx := c.cursor } else c
  else c

/-- The method `ScrollRight`. -/
def CommitCarousel.ScrollRight (c : CommitCarousel) : CommitCarousel :=
  let maxCursor := c.len - c.maxVisible
  let maxCursor := if maxCursor < 0 then 0 else maxCursor
  if c.cursor < maxCursor then
    let c := { c with cursor := c.cursor + 1 }
    if c.selectedIdx < c.cursor then { c with selectedIdx := c.cursor } else c
  else c

/-- The method `NearEnd`. -/
def CommitCarousel.NearEnd (c : CommitCarousel) : Bool :=
  decide (c.cursor + c.maxVisible ≥ c.len - 3)

/-- The method `SetLoading`. -/
def CommitCarousel.SetLoading (c : CommitCarousel) (loading : Bool) : CommitCarousel :=
  { c with loading := loading }

/-- The method `AppendCommits`. -/
def CommitCarousel.AppendCommits (c : CommitCarousel) (commits : List CommitInfo) :
    CommitCarousel :=
  { c with commits := c.commits ++ commits }

/-- The method `SetCommits`. -/
def CommitCarousel.SetCommits (c : CommitCarousel) (commits : List CommitInfo) :
    CommitCarousel :=
  { c with commits := commits, cursor := 0, selectedIdx := 0 }

/-- The method `GetCommits`. -/
def CommitCarousel.GetCommits (c : CommitCarousel) : List CommitInfo := c.commits

/-- Go's slice expression `s[lo:hi]`; `none` is the run-time panic for bounds
that are not `0 <= lo <= hi <= len(s)`. -/
def goSlice {α : Type} (s : List α) (lo hi : Int) : Option (List α) :=
  if 0 ≤ lo ∧ lo ≤ hi ∧ hi ≤ (s.length : Int) then
    some ((s.drop lo.toNat).take (hi - lo).toNat)
  else none

/-- The method `visibleCommits`; a `nil` slice is the empty list. -/
def CommitCarousel.visibleCommits (c : CommitCarousel) : Option (List CommitInfo) :=
  if c.len = 0 then some []
  else
    let end_ := c.cursor + c.maxVisible
    let end_ := if end_ > c.len then c.len else end_
    goSlice c.commits c.cursor end_

/-- The numbers `Render` computes for a non-empty visible window before it draws. -/
structure RenderLayout where
  totalBoxesWidth : Int
  remainingSpace : Int
  spacing : Int
  lineWidth : Int
  deriving DecidableEq, Repr

/-- The layout arithmetic of `Render` (lines 128-138) for the window `visible`. -/
def CommitCarousel.renderLayout (c : CommitCarousel) (visible : List CommitInfo) :
    RenderLayout :=
  let sampleBox := NewCommitBox CommitInfo.zero false
  let boxWidth := sampleBox.GetWidth
  let totalBoxesWidth := boxWidth * (visible.length : Int)
  let remainingSpace := c.width - totalBoxesWidth
  let spacing := remainingSpace.tdiv ((visible.length : Int) + 1)
  let spacing := if spacing < 15 then 15 else spacing
  let lineWidth := spacing - 4
  { totalBoxesWidth := totalBoxesWidth, remainingSpace := remainingSpace,
    spacing := spacing, lineWidth := lineWidth }

/-- The flag `isSelected` that `Render` passes to the card at window position `i`. -/
def CommitCarousel.isSelected (c : CommitCarousel) (i : Int) : Bool :=
  decide (c.cursor + i = c.selectedIdx)

/-- The operations the event loop applies to a carousel. -/
inductive CarouselOp where
  | updateSize (width height : Int)
  | appendCommits (commits : List CommitInfo)
  | setCommits (commits : List CommitInfo)
  | scrollLeft
  | scrollRight
  deriving DecidableEq, Repr

/-- One operation applied to a carousel. -/
def CommitCarousel.step (c : CommitCarousel) : CarouselOp → CommitCarousel
  | .updateSize w h => c.UpdateSize w h
  | .appendCommits cs => c.AppendCommits cs
  | .setCommits cs => c.SetCommits cs
  | .scrollLeft => c.ScrollLeft
  | .scrollRight => c.ScrollRight

/-- A sequence of operations applied left to right. -/
def CommitCarousel.run (c : CommitCarousel) (ops : List CarouselOp) : CommitCarousel :=
  ops.foldl CommitCarousel.step c

/-- `k` consecutive calls of `ScrollRight`. -/
def CommitCarousel.scrollRightTimes (c : CommitCarousel) : Nat → CommitCarousel
  | 0 => c
  | k + 1 => (c.ScrollRight).scrollRightTimes k

/-- The bound `max(0, len(commits) - maxVisible)` of the specification. -/
def CommitCarousel.maxCursor (c : CommitCarousel) : Int := max 0 (c.len - c.maxVisible)

/-- A carousel of ten records with room for two cards, at the given cursors. -/
def tenRecords (cursor selectedIdx : Int) : CommitCarousel :=
  { commits := List.replicate 10 CommitInfo.zero, cursor := cursor, width := 140, height := 40,
    maxVisible := 2, selectedIdx := selectedIdx, loading := false }

/-! ## internal/model/model.go -/

/-- The message `loadCommitsMsg`. -/
structure loadCommitsMsg where
  commits : List CommitInfo
  hasMore : Bool
  err : Option String
  deriving DecidableEq, Repr

/-- The state `Model`. -/
structure Model where
  repo : Repository
  carousel : CommitCarousel
  width : Int
  height : Int
  ready : Bool
  err : Option String
  loading : Bool
  lastHash : String
  hasMore : Bool

/-- The constructor `New` of the model, after `git.New` has opened `repo`. -/
def Model.New (repo : Repository) : Model :=
  { repo := repo, carousel := NewCommitCarousel, width := 0, height := 0, ready := false,
    err := none, loading := false, lastHash := "", hasMore := true }

/-- The command that `loadMoreCommits` returns, run once: the model after it
and the message it delivers (`none` for a `nil` message). -/
def Model.loadMoreCommits (m : Model) : Model × Option loadCommitsMsg :=
  if !m.hasMore || m.loading then (m, none)
  else
    let m := { m with loading := true }
    match m.repo.LoadCommits m.lastHash 20 with
    | .error e => (m, some { commits := [], hasMore := false, err := some e })
    | .ok (commits, hasMore, repo) =>
      let m := { m with repo := repo }
      let m := match commits.getLast? with
        | some last => { m with lastHash := last.Hash }
        | none => m
      (m, some { commits := commits, hasMore := hasMore, err := none })

/-- The messages `Update` distinguishes. -/
inductive Msg where
  | loadCommits (msg : loadCommitsMsg)
  | key (name : String)
  | windowSize (Width Height : Int)
  | other

/-- The commands `Update` can return. -/
inductive Cmd where
  | loadMore
  | quit
  deriving DecidableEq, Repr

/-- The method `Update`: the new model and the batch of commands it returns. -/
def Model.Update (m : Model) : Msg → Model × List Cmd
  | .loadCommits msg =>
    let m := { m with loading := false }
    match msg.err with
    | some e => ({ m with err := some e }, [])
    | none =>
      let m := { m with hasMore := msg.hasMore }
      if msg.commits.length > 0 then
        let m := { m with carousel := m.carousel.AppendCommits msg.commits }
        if m.carousel.NearEnd && m.hasMore then (m, [Cmd.loadMore]) else (m, [])
      else (m, [])
  | .key name =>
    if name = "q" ∨ name = "ctrl+c" then (m, [Cmd.quit])
    else if name = "left" then ({ m with carousel := m.carousel.ScrollLeft }, [])
    else if name = "right" then
      let m := { m with carousel := m.carousel.ScrollRight }
      if m.carousel.NearEnd && m.hasMore && !m.loading then (m, [Cmd.loadMore]) else (m, [])
    else (m, [])
  | .windowSize Width Height =>
    let m := { m with width := Width, height := Height }
    if !m.ready then
      let m := { m with carousel := m.carousel.UpdateSize Width Height, ready := true }
      if !m.loading && m.carousel.GetCommits.length = 0 then (m, [Cmd.loadMore]) else (m, [])
    else
      ({ m with carousel := m.carousel.UpdateSize Width Height }, [])
  | .other => (m, [])

/-- One round of paging as the program performs it: the command of
`loadMoreCommits` runs and its message, if any, goes through `Update`. The
page delivered is returned next to the model. -/
def Model.fetchRound (m : Model) : Model × Option loadCommitsMsg :=
  match m.loadMoreCommits with
  | (m1, none) => (m1, none)
  | (m1, some msg) => ((m1.Update (Msg.loadCommits msg)).1, some msg)

/-- A synthetic commit whose hash is `i` written as 40 hex digits. -/
def synthCommit (i : Nat) : Commit :=
  let hex : List Char := "0123456789abcdef".data
  let digit (d : Nat) : Char := hex.getD d '0'
  { Hash := String.mk (List.replicate 38 '0' ++ [digit (i / 16 % 16), digit (i % 16)]),
    Author := { Name := "a", Email := "a@x", When := 0 },
    Committer := { Name := "a", Email := "a@x", When := 0 },
    Message := "m", ParentHashes := [], Stats := [] }

/-- A linear history of `n` synthetic commits numbered `1` to `n`, head first. -/
def synthHistory (n : Nat) : List Commit := (List.range n).map (fun i => synthCommit (i + 1))

/-- Hashes of a page. -/
def pageHashes (page : List CommitInfo) : List String := page.map CommitInfo.Hash


/-- The carousel invariant of the specification. -/
def CommitCarousel.cursorInv (c : CommitCarousel) : Prop :=
  0 ≤ c.cursor ∧ c.cursor ≤ max 0 (c.len - c.maxVisible) ∧ c.cursor ≤ c.selectedIdx

/-- The identities of `hs` that are not in `known`, each at its first occurrence. -/
def freshIn (known hs : List String) : List String :=
  (distinctInOrder hs).filter (fun x => decide (x ∉ known))

/-- The invariant of the callback state in `LoadCommits`: `count` is the number
of records collected, `seen` holds exactly their hashes, the limit has not
been overrun and `hasMore` is still unset. -/
def LoadState.wf (s : LoadState) (limit : Int) : Prop :=
  s.count = (s.commits.length : Int) ∧
  (∀ h : String, h ∈ s.seen ↔ h ∈ pageHashes s.commits) ∧
  s.count ≤ limit ∧ s.hasMore = false

/-- A repository over three synthetic commits. -/
def threeCommits : Repository := linearRepository (synthHistory 3)

/-- A repository whose iterator yields the first commit a second time. -/
def repeatingSource : Repository :=
  { log := fun _ =>
      .ok { entries := [synthCommit 1, synthCommit 2, synthCommit 1, synthCommit 3],
            failure := none },
    cache := newCommitCache 20,
    head := (synthCommit 1).Hash,
    branches := [],
    tags := [] }

/-- The result of a successful `LoadCommits` on `r` whose page consists of the
records of the commits `kept`. -/
def expectedLoad (r : Repository) (kept : List Commit) (hasMore : Bool) :
    List CommitInfo × Bool × Repository :=
  (kept.map r.commitInfoOf, hasMore,
    { r with cache := r.cache.storeAll (kept.map r.commitInfoOf) })

/-- The model of a session over a linear history of 45 synthetic commits. -/
def session45 : Model := Model.New (linearRepository (synthHistory 45))

/-- What a delivered page shows: its hashes and its `hasMore` flag. -/
def pageSummary (msg : Option loadCommitsMsg) : Option (List String × Bool) :=
  msg.map (fun m => (pageHashes m.commits, m.hasMore))

/-- Hashes of the entries `start + 1` to `start + n` of a history. -/
def entryHashes (history : List Commit) (start n : Nat) : List String :=
  ((history.drop start).take n).map Commit.Hash

/-! ## internal/ui/gradient_line.go -/

/-- The value `GradientLine`. -/
structure GradientLine where
  startColor : String
  endColor : String
  width : Int
  deriving DecidableEq, Repr

def NewGradientLine (startColor endColor : String) (width : Int) : GradientLine :=
  { startColor := startColor, endColor := endColor, width := width }

/-- A `float64` value: a finite number, an infinity with its sign, or NaN.
The sign of zero is not tracked. -/
inductive Float64 where
  | finite (q : ℚ)
  | inf (negative : Bool)
  | nan
  deriving DecidableEq

/-- What the platform fixes about `float64`: how an exact finite result is
rounded to a representable value, and the integer that converting NaN, an
infinity or an out-of-range value to `int` yields, which Go leaves to the
implementation. -/
structure FloatPlatform where
  round64 : ℚ → ℚ
  intOfInvalid : Int

/-- The conversion `float64(n)`, exact for the magnitudes that occur here
(below `2^53`). -/
def Float64.ofInt (n : Int) : Float64 := .finite (n : ℚ)

/-- The operator `/` on `float64`: a zero divided by a zero is NaN and no
run-time panic occurs. -/
def Float64.div (p : FloatPlatform) : Float64 → Float64 → Float64
  | .nan, _ => .nan
  | _, .nan => .nan
  | .finite a, .finite b =>
    if b = 0 then (if a = 0 then .nan else .inf (decide (a < 0)))
    else .finite (p.round64 (a / b))
  | .finite _, .inf _ => .finite 0
  | .inf s, .finite b => .inf (xor s (decide (b < 0)))
  | .inf _, .inf _ => .nan

/-- The operator `*` on `float64`. -/
def Float64.mul (p : FloatPlatform) : Float64 → Float64 → Float64
  | .nan, _ => .nan
  | _, .nan => .nan
  | .finite a, .finite b => .finite (p.round64 (a * b))
  | .finite a, .inf s => if a = 0 then .nan else .inf (xor s (decide (a < 0)))
  | .inf s, .finite b => if b = 0 then .nan else .inf (xor s (decide (b < 0)))
  | .inf s, .inf t => .inf (xor s t)

/-- The operator `+` on `float64`. -/
def Float64.add (p : FloatPlatform) : Float64 → Float64 → Float64
  | .nan, _ => .nan
  | _, .nan => .nan
  | .finite a, .finite b => .finite (p.round64 (a + b))
  | .finite _, .inf s => .inf s
  | .inf s, .finite _ => .inf s
  | .inf s, .inf t => if s = t then .inf s else .nan

/-- The function `math.Round`: nearest integer, halves away from zero; NaN and
the infinities are returned as they are. -/
def Float64.Round : Float64 → Float64
  | .finite q => .finite (if 0 ≤ q then (⌊q + 1 / 2⌋ : ℚ) else -(⌊-q + 1 / 2⌋ : ℚ))
  | .inf s => .inf s
  | .nan => .nan

/-- The conversion `int(x)`: truncation toward zero for a value in range. -/
def Float64.toInt (p : FloatPlatform) : Float64 → Int
  | .finite q =>
    let n := q.num.tdiv (q.den : Int)
    if -(2 : Int) ^ 63 ≤ n ∧ n < (2 : Int) ^ 63 then n else p.intOfInvalid
  | .inf _ => p.intOfInvalid
  | .nan => p.intOfInvalid

/-- The runes `Sscanf` skips as blanks before a field: the space table of
package `fmt` without the newline. -/
def isScanSpace (c : Char) : Bool :=
  let n := c.toNat
  (0x0009 ≤ n ∧ n ≤ 0x000d ∧ n ≠ 0x000a) ∨ n = 0x0020 ∨ n = 0x0085 ∨ n = 0x00a0 ∨ n = 0x1680 ∨
  (0x2000 ≤ n ∧ n ≤ 0x200a) ∨ (0x2028 ≤ n ∧ n ≤ 0x2029) ∨ n = 0x202f ∨ n = 0x205f ∨ n = 0x3000

/-- The blanks `Sscanf` skips before a field; a newline among them is an error. -/
def skipScanSpace : List Char → Option (List Char)
  | [] => some []
  | c :: rest =>
    if c = '\n' then none
    else if isScanSpace c then skipScanSpace rest
    else some (c :: rest)

/-- One `%02x` field of `Sscanf` after the blanks: at most two runes, an
optional sign and then hexadecimal digits, at least one. -/
def scanHex2 : List Char → Option (Int × List Char)
  | [] => none
  | a :: rest =>
    if a = '+' ∨ a = '-' then
      match rest with
      | [] => none
      | d :: rest1 =>
        match hexDigitValue d with
        | some x => some (if a = '-' then -(x : Int) else (x : Int), rest1)
        | none => none
    else
      match hexDigitValue a with
      | none => none
      | some x =>
        match rest with
        | [] => some ((x : Int), [])
        | b :: rest1 =>
          match hexDigitValue b with
          | some y => some ((16 * x + y : Nat), rest1)
          | none => some ((x : Int), b :: rest1)

/-- One verb of the format: blanks are skipped, then the field is read. -/
def scanField (s : List Char) : Option (Int × List Char) :=
  match skipScanSpace s with
  | none => none
  | some s1 => scanHex2 s1

/-- The function `hexToRGB`. `none` is the panic of `hex[1:]` on the empty
string. `hex[1:]` drops one byte: after a first character of more than one
byte the rest starts with bytes that are no rune, and no field is read. A
field that `Sscanf` cannot read and the fields after it keep the value 0, as
the scan error is discarded. -/
def hexToRGB (hex : String) : Option (Int × Int × Int) :=
  match hex.data with
  | [] => none
  | c :: s =>
    if c.toNat ≥ 128 then some (0, 0, 0)
    else
      match scanField s with
      | none => some (0, 0, 0)
      | some (r, s1) =>
        match scanField s1 with
        | none => some (r, 0, 0)
        | some (g, s2) =>
          match scanField s2 with
          | none => some (r, g, 0)
          | some (b, _) => some (r, g, b)

/-- The verb `%02x` of `Sprintf` on an `int`: lower-case hexadecimal digits,
zero-padded to width two, the sign of a negative number counting as one
column. -/
def fmt02x (n : Int) : String :=
  let ds := Nat.toDigits 16 n.natAbs
  if n < 0 then String.mk ('-' :: (List.replicate (1 - ds.length) '0' ++ ds))
  else String.mk (List.replicate (2 - ds.length) '0' ++ ds)

/-- The function `rgbToHex`. -/
def rgbToHex (r g b : Int) : String := "#" ++ fmt02x r ++ fmt02x g ++ fmt02x b

/-- The function `interpolateColor`. -/
def interpolateColor (p : FloatPlatform) (startR startG startB endR endG endB : Int)
    (t : Float64) : Int × Int × Int :=
  let r := (((Float64.ofInt startR).add p (t.mul p (Float64.ofInt (endR - startR)))).Round).toInt p
  let g := (((Float64.ofInt startG).add p (t.mul p (Float64.ofInt (endG - startG)))).Round).toInt p
  let b := (((Float64.ofInt startB).add p (t.mul p (Float64.ofInt (endB - startB)))).Round).toInt p
  (r, g, b)

/-- The method `Render` of `GradientLine`. Every segment is the same rune
styled with a foreground colour; the result lists the colours of the segments
in order (the empty list for the empty string). -/
def GradientLine.Render (p : FloatPlatform) (g : GradientLine) : Option (List String) :=
  if g.width ≤ 0 then some []
  else
    match hexToRGB g.startColor, hexToRGB g.endColor with
    | some (startR, startG, startB), some (endR, endG, endB) =>
      some ((List.range g.width.toNat).map (fun (i : Nat) =>
        let t := (Float64.ofInt (i : Int)).div p (Float64.ofInt (g.width - 1))
        let (r, gr, b) := interpolateColor p startR startG startB endR endG endB t
        rgbToHex r gr b))
    | _, _ => none

/-- Rounding of an exact value to the nearest `float64`, ties to the even
significand, for values in the normal range: the value is scaled so that its
magnitude lies in `[2^52, 2^53)`, rounded to an integer and scaled back. -/
def roundBinary64 (q : ℚ) : ℚ :=
  if q = 0 then 0
  else
    let a := |q|
    let k : Int := (Nat.log2 a.num.natAbs : Int) - (Nat.log2 a.den : Int)
    let e : Int := if (2 : ℚ) ^ k ≤ a then k else k - 1
    let scale : ℚ := (2 : ℚ) ^ (52 - e)
    let m := a * scale
    let f : Int := ⌊m⌋
    let n : Int :=
      if m - f < 1 / 2 then f
      else if 1 / 2 < m - f then f + 1
      else if f % 2 = 0 then f else f + 1
    (if q < 0 then -(n : ℚ) else (n : ℚ)) / scale

/-- The platform amd64: finite results are rounded to `float64`, and an
invalid conversion to `int` yields the smallest 64-bit integer. -/
def amd64 : FloatPlatform := { round64 := roundBinary64, intOfInvalid := -(2 : Int) ^ 63 }

/-! ## internal/ui/carousel.go : Render -/

/-- The string literal that `GradientLine.Render` styles for every segment
(gradient_line.go line 57), as it stands in the source file: the three runes
U+00E2, U+201D, U+20AC. -/
def segmentText : String := "â”€"

/-- One string that `Render` appends to `rowElements`. -/
inductive RowElement where
  | boxLine (commit : CommitInfo) (selected : Bool) (row : Int)
  | connector (segments : List String)
  | blanks (count : Int)
  deriving DecidableEq, Repr

/-- The inner loop of `Render` for one `row`: the line `row` of each card and,
after every card but the last, either two blanks, the gradient line between
the colours of the two neighbours and two blanks (on row `dotLine + 1`), or
`lineWidth + 4` blanks. `i` is the window position of the first card of
`visible`; `none` is a panic inside `hexToRGB`. -/
def CommitCarousel.rowElements (p : FloatPlatform) (c : CommitCarousel) (lineWidth row : Int) :
    Int → List CommitInfo → Option (List RowElement)
  | _, [] => some []
  | i, [a] => some [RowElement.boxLine a (c.isSelected i) row]
  | i, a :: b :: rest =>
    let gap : Option RowElement :=
      if row = dotLine + 1 then
        ((NewGradientLine a.Color b.Color lineWidth).Render p).map RowElement.connector
      else some (RowElement.blanks (lineWidth + 4))
    match gap, CommitCarousel.rowElements p c lineWidth row (i + 1) (b :: rest) with
    | some g, some tail => some (RowElement.boxLine a (c.isSelected i) row :: g :: tail)
    | _, _ => none

/-- What `Render` hands to the styling backend. -/
inductive Rendered where
  | message (text : String)
  | emptyString
  | rows (content : List (List RowElement))
  deriving DecidableEq, Repr

/-- The method `Render` of the carousel up to the final styling: `cardLines`
is the number of lines of a rendered card (`len(boxes[0])`), which the styling
backend determines. `none` is a panic. -/
def CommitCarousel.Render (p : FloatPlatform) (cardLines : Nat) (c : CommitCarousel) :
    Option Rendered :=
  if !c.loading && c.commits.length = 0 then some (Rendered.message "No commits to display")
  else
    match c.visibleCommits with
    | none => none
    | some visible =>
      if visible.length = 0 then
        if c.loading then some (Rendered.message "Loading commits...")
        else some Rendered.emptyString
      else
        let lineWidth := (c.renderLayout visible).lineWidth
        ((List.range cardLines).mapM (fun row =>
          c.rowElements p lineWidth (row : Int) 0 visible)).map Rendered.rows

/-- Terminal columns of one row element: a card line takes `cardColumns`
columns, which the styling backend determines; a connector takes two blanks,
`segmentText` once per segment (one column per rune) and two blanks. -/
def RowElement.columns (cardColumns : Int) : RowElement → Int
  | .boxLine _ _ _ => cardColumns
  | .connector segments => 2 + (segments.length : Int) * (segmentText.length : Int) + 2
  | .blanks count => count

/-- Terminal columns of a row, whose elements are joined horizontally. -/
def rowColumns (cardColumns : Int) (row : List RowElement) : Int :=
  (row.map (RowElement.columns cardColumns)).sum

/-- The records `LoadCommits` builds for three synthetic commits. -/
def threeRecords : List CommitInfo := (synthHistory 3).map threeCommits.commitInfoOf

/-- A carousel 180 columns wide that shows `threeRecords`. -/
def wideCarousel : CommitCarousel :=
  (NewCommitCarousel.UpdateSize 180 40).AppendCommits threeRecords

end GoGitTui

/-! # Theorems -/

namespace GoGitTui

/-! ## Carousel: shared lemmas -/

theorem tdiv_fiftyfive_nonneg (a : Int) (h : 0 ≤ a) : a.tdiv 55 = a / 55 :=
  Int.tdiv_eq_ediv h (by decide)

theorem tdiv_fiftyfive_neg (a : Int) (h : a < 0) : a.tdiv 55 ≤ 0 := by
  have h1 : a.tdiv 55 = -((-a).tdiv 55) := by
    rw [← Int.neg_tdiv, neg_neg]
  rw [h1, Int.tdiv_eq_ediv (by omega) (by decide)]
  omega

theorem UpdateSize_maxVisible (c : CommitCarousel) (width height : Int) :
    (c.UpdateSize width height).maxVisible = max 1 ((wrapInt64 (width - 15)).tdiv 55) := by
  simp only [CommitCarousel.UpdateSize, CommitBox.GetWidth, boxWidth, CommitCarousel.len]
  have e : (40 : Int) + 15 = 55 := by decide
  rw [e]
  generalize (wrapInt64 (width - 15)).tdiv 55 = q
  by_cases h1 : q < 1
  · simp only [h1, if_true]
    split_ifs <;> simp <;> omega
  · simp only [h1, if_false]
    split_ifs <;> simp <;> omega

theorem UpdateSize_fields (c : CommitCarousel) (width height : Int) :
    (c.UpdateSize width height).commits = c.commits ∧
    (c.UpdateSize width height).selectedIdx = c.selectedIdx ∧
    (c.UpdateSize width height).width = width ∧
    (c.UpdateSize width height).height = height ∧
    (c.UpdateSize width height).loading = c.loading ∧
    (c.UpdateSize width height).cursor =
      min c.cursor (max 0 (c.len - max 1 ((wrapInt64 (width - 15)).tdiv 55))) := by
  simp only [CommitCarousel.UpdateSize, CommitBox.GetWidth, boxWidth, CommitCarousel.len]
  have e : (40 : Int) + 15 = 55 := by decide
  rw [e]
  generalize (wrapInt64 (width - 15)).tdiv 55 = q
  by_cases h1 : q < 1
  · simp only [h1, if_true]
    split_ifs <;> simp <;> omega
  · simp only [h1, if_false]
    split_ifs <;> simp <;> omega

theorem ScrollLeft_fields (c : CommitCarousel) :
    (c.ScrollLeft).commits = c.commits ∧
    (c.ScrollLeft).maxVisible = c.maxVisible ∧
    (c.ScrollLeft).width = c.width ∧
    (c.ScrollLeft).cursor = (if c.cursor > 0 then c.cursor - 1 else c.cursor) ∧
    (c.ScrollLeft).selectedIdx =
      (if c.cursor > 0 ∧ c.selectedIdx > c.cursor - 1 then c.cursor - 1 else c.selectedIdx) := by
  simp only [CommitCarousel.ScrollLeft]
  split_ifs <;> simp_all

theorem ScrollRight_fields (c : CommitCarousel) :
    (c.ScrollRight).commits = c.commits ∧
    (c.ScrollRight).maxVisible = c.maxVisible ∧
    (c.ScrollRight).width = c.width ∧
    (c.ScrollRight).cursor = (if c.cursor < c.maxCursor then c.cursor + 1 else c.cursor) ∧
    (c.ScrollRight).selectedIdx =
      (if c.cursor < c.maxCursor ∧ c.selectedIdx < c.cursor + 1 then c.cursor + 1
       else c.selectedIdx) := by
  simp only [CommitCarousel.ScrollRight, CommitCarousel.maxCursor]
  have hm : (if c.len - c.maxVisible < 0 then (0 : Int) else c.len - c.maxVisible)
      = max 0 (c.len - c.maxVisible) := by
    split_ifs <;> omega
  rw [hm]
  split_ifs <;> simp_all

theorem cursorInv_step (c : CommitCarousel) (op : CarouselOp) (h : c.cursorInv) :
    (c.step op).cursorInv := by
  obtain ⟨h0, h1, h2⟩ := h
  cases op with
  | updateSize w ht =>
    obtain ⟨e1, e2, _, _, _, e6⟩ := UpdateSize_fields c w ht
    have e7 := UpdateSize_maxVisible c w ht
    simp only [CommitCarousel.cursorInv, CommitCarousel.step, CommitCarousel.len, e1, e2, e6, e7]
    simp only [CommitCarousel.len] at h1
    omega
  | appendCommits cs =>
    simp only [CommitCarousel.cursorInv, CommitCarousel.step, CommitCarousel.AppendCommits,
      CommitCarousel.len, List.length_append, Nat.cast_add]
    simp only [CommitCarousel.len] at h1
    omega
  | setCommits cs =>
    simp only [CommitCarousel.cursorInv, CommitCarousel.step, CommitCarousel.SetCommits,
      CommitCarousel.len]
    omega
  | scrollLeft =>
    obtain ⟨e1, e2, _, e4, e5⟩ := ScrollLeft_fields c
    simp only [CommitCarousel.cursorInv, CommitCarousel.step, CommitCarousel.len, e1, e2, e4, e5]
    simp only [CommitCarousel.len] at h1
    split_ifs <;> omega
  | scrollRight =>
    obtain ⟨e1, e2, _, e4, e5⟩ := ScrollRight_fields c
    simp only [CommitCarousel.cursorInv, CommitCarousel.step, CommitCarousel.len, e1, e2, e4, e5,
      CommitCarousel.maxCursor]
    simp only [CommitCarousel.len] at h1
    split_ifs <;> omega

theorem cursorInv_run (ops : List CarouselOp) (c : CommitCarousel) (h : c.cursorInv) :
    (c.run ops).cursorInv := by
  induction ops generalizing c with
  | nil => exact h
  | cons op ops ih =>
    simp only [CommitCarousel.run, List.foldl_cons]
    exact ih (c.step op) (cursorInv_step c op h)

/-- C2. In every state reachable from `NewCommitCarousel` by any sequence of
`UpdateSize` (any integer arguments), `AppendCommits`, `SetCommits`,
`ScrollLeft` and `ScrollRight`, the cursor satisfies
`0 <= cursor <= max(0, len(commits) - maxVisible)` and `cursor <= selectedIdx`. -/
theorem carousel_cursor_invariant (ops : List CarouselOp) :
    0 ≤ (NewCommitCarousel.run ops).cursor ∧
    (NewCommitCarousel.run ops).cursor ≤
      max 0 (((NewCommitCarousel.run ops).commits.length : Int)
        - (NewCommitCarousel.run ops).maxVisible) ∧
    (NewCommitCarousel.run ops).cursor ≤ (NewCommitCarousel.run ops).selectedIdx := by
  have h0 : NewCommitCarousel.cursorInv := by
    simp [CommitCarousel.cursorInv, NewCommitCarousel, CommitCarousel.len]
  exact cursorInv_run ops NewCommitCarousel h0

/-- C3. A resize moves the window without clamping the selection: after
`UpdateSize(140)`, three records, one `ScrollRight`, `UpdateSize(195)` and
`UpdateSize(100)` the window is `[0, 1)` while `selectedIdx` is `1`, so the
selection is outside the window and `Render` marks no visible card selected. -/
theorem resize_leaves_selection_outside_window :
    (NewCommitCarousel.run
      [CarouselOp.updateSize 140 40,
       CarouselOp.appendCommits (List.replicate 3 CommitInfo.zero),
       CarouselOp.scrollRight,
       CarouselOp.updateSize 195 40,
       CarouselOp.updateSize 100 40]).cursor = 0 ∧
    (NewCommitCarousel.run
      [CarouselOp.updateSize 140 40,
       CarouselOp.appendCommits (List.replicate 3 CommitInfo.zero),
       CarouselOp.scrollRight,
       CarouselOp.updateSize 195 40,
       CarouselOp.updateSize 100 40]).maxVisible = 1 ∧
    (NewCommitCarousel.run
      [CarouselOp.updateSize 140 40,
       CarouselOp.appendCommits (List.replicate 3 CommitInfo.zero),
       CarouselOp.scrollRight,
       CarouselOp.updateSize 195 40,
       CarouselOp.updateSize 100 40]).selectedIdx = 1 ∧
    (NewCommitCarousel.run
      [CarouselOp.updateSize 140 40,
       CarouselOp.appendCommits (List.replicate 3 CommitInfo.zero),
       CarouselOp.scrollRight,
       CarouselOp.updateSize 195 40,
       CarouselOp.updateSize 100 40]).isSelected 0 = false := by
  decide

theorem wrapInt64_of_range (x : Int) (hlo : -9223372036854775808 ≤ x)
    (hhi : x < 9223372036854775808) : wrapInt64 x = x := by
  simp only [wrapInt64]
  omega

/-- C4 as stated fails at the smallest 64-bit width: `width - 15` wraps to
`2^63 - 15`, so `UpdateSize` sets `maxVisible` to 167697673397359559, while
`max(1, floor((width - 15) / (40 + 15)))` is 1. -/
theorem resize_formula_fails_at_min_width :
    (NewCommitCarousel.UpdateSize (-9223372036854775808) 40).maxVisible = 167697673397359559 ∧
    max 1 ⌊(((-9223372036854775808 - 15 : Int) : ℚ)) / (((40 + 15 : Nat) : ℚ))⌋ = 1 ∧
    (NewCommitCarousel.UpdateSize (-9223372036854775808) 40).maxVisible
      ≠ max 1 ⌊(((-9223372036854775808 - 15 : Int) : ℚ)) / (((40 + 15 : Nat) : ℚ))⌋ := by
  have h1 : (NewCommitCarousel.UpdateSize (-9223372036854775808) 40).maxVisible
      = 167697673397359559 := by decide
  have h2 : max 1 ⌊(((-9223372036854775808 - 15 : Int) : ℚ)) / (((40 + 15 : Nat) : ℚ))⌋
      = (1 : Int) := by
    rw [Rat.floor_intCast_div_natCast]
    decide
  refine ⟨h1, h2, ?_⟩
  rw [h1, h2]
  decide

/-- C4, amended. For every carousel state with `cursor >= 0` and all 64-bit
integers `width` and `height`: after `UpdateSize(width, height)` the field
`maxVisible` is at least 1, the cursor is within
`[0, max(0, len(commits) - maxVisible)]`, and the cursor is unchanged when it
was already within that bound; and whenever `width - 15` does not wrap, that
is for `width >= -2^63 + 15` (zero and negative widths included), `maxVisible`
equals `max(1, floor((width - 15) / (40 + 15)))`. -/
theorem resize_postcondition (c : CommitCarousel) (width height : Int) (h : 0 ≤ c.cursor) :
    (-9223372036854775808 + 15 ≤ width → width < 9223372036854775808 →
      (c.UpdateSize width height).maxVisible
        = max 1 ⌊(((width - 15 : Int) : ℚ)) / (((40 + 15 : Nat) : ℚ))⌋) ∧
    1 ≤ (c.UpdateSize width height).maxVisible ∧
    0 ≤ (c.UpdateSize width height).cursor ∧
    (c.UpdateSize width height).cursor ≤
      max 0 (((c.UpdateSize width height).commits.length : Int)
        - (c.UpdateSize width height).maxVisible) ∧
    (c.cursor ≤ max 0 ((c.commits.length : Int) - (c.UpdateSize width height).maxVisible) →
      (c.UpdateSize width height).cursor = c.cursor) := by
  obtain ⟨e1, _, _, _, _, e6⟩ := UpdateSize_fields c width height
  have e7 := UpdateSize_maxVisible c width height
  refine ⟨?_, ?_, ?_, ?_, ?_⟩
  · intro hlo hhi
    rw [Rat.floor_intCast_div_natCast, e7, wrapInt64_of_range _ (by omega) (by omega)]
    have e : ((40 + 15 : Nat) : Int) = 55 := by decide
    rw [e]
    rcases lt_or_le (width - 15) 0 with hn | hp
    · have := tdiv_fiftyfive_neg _ hn
      omega
    · rw [tdiv_fiftyfive_nonneg _ hp]
  all_goals
    simp only [e1, e6, e7, CommitCarousel.len]
    omega

/-- C4 amended, at width 140 (where `maxVisible` is 2) and at width -7 (where
it is 1). -/
theorem resize_postcondition_witness :
    (0 : Int) ≤ NewCommitCarousel.cursor ∧
    (NewCommitCarousel.UpdateSize 140 40).maxVisible = 2 ∧
    (NewCommitCarousel.UpdateSize 140 40).maxVisible
      = max 1 ⌊(((140 - 15 : Int) : ℚ)) / (((40 + 15 : Nat) : ℚ))⌋ ∧
    (NewCommitCarousel.UpdateSize (-7) 40).maxVisible
      = max 1 ⌊(((-7 - 15 : Int) : ℚ)) / (((40 + 15 : Nat) : ℚ))⌋ :=
  ⟨by decide, by decide,
   (resize_postcondition NewCommitCarousel 140 40 (by decide)).1 (by decide) (by decide),
   (resize_postcondition NewCommitCarousel (-7) 40 (by decide)).1 (by decide) (by decide)⟩

/-- C8. `ScrollRight` then `ScrollLeft` restores the cursor when
`0 <= cursor < max(0, len(commits) - maxVisible)`; `ScrollRight` leaves the
whole state unchanged when `cursor = max(0, len(commits) - maxVisible)`;
`ScrollLeft` leaves the whole state unchanged when `cursor = 0`. -/
theorem scroll_inverse_pair (c : CommitCarousel) :
    (0 ≤ c.cursor → c.cursor < max 0 ((c.commits.length : Int) - c.maxVisible) →
      (c.ScrollRight.ScrollLeft).cursor = c.cursor) ∧
    (c.cursor = max 0 ((c.commits.length : Int) - c.maxVisible) → c.ScrollRight = c) ∧
    (c.cursor = 0 → c.ScrollLeft = c) := by
  refine ⟨?_, ?_, ?_⟩
  · intro h0 h1
    obtain ⟨_, _, _, e4, _⟩ := ScrollRight_fields c
    obtain ⟨_, _, _, f4, _⟩ := ScrollLeft_fields c.ScrollRight
    rw [f4, e4]
    simp only [CommitCarousel.maxCursor, CommitCarousel.len]
    split_ifs <;> omega
  · intro h
    have hm : (if c.len - c.maxVisible < 0 then (0 : Int) else c.len - c.maxVisible)
        = max 0 (c.len - c.maxVisible) := by
      split_ifs <;> omega
    simp only [CommitCarousel.ScrollRight, hm]
    rw [if_neg]
    simp only [CommitCarousel.len]
    omega
  · intro h
    simp only [CommitCarousel.ScrollLeft]
    rw [if_neg]
    omega

/-- C8, on a carousel of ten records with `maxVisible = 2`: away from the
bounds (cursor 3), at the right bound (cursor 8) and at the left bound. -/
theorem scroll_inverse_pair_witness :
    (((tenRecords 3 3).ScrollRight).ScrollLeft).cursor = (tenRecords 3 3).cursor ∧
    (tenRecords 8 8).ScrollRight = tenRecords 8 8 ∧
    (tenRecords 0 5).ScrollLeft = tenRecords 0 5 :=
  ⟨(scroll_inverse_pair (tenRecords 3 3)).1 (by decide) (by decide),
   (scroll_inverse_pair (tenRecords 8 8)).2.1 (by decide),
   (scroll_inverse_pair (tenRecords 0 5)).2.2 (by decide)⟩

theorem scrollRightTimes_fields (k : Nat) (c : CommitCarousel) :
    (c.scrollRightTimes k).commits = c.commits ∧
    (c.scrollRightTimes k).maxVisible = c.maxVisible := by
  induction k generalizing c with
  | zero => exact ⟨rfl, rfl⟩
  | succ k ih =>
    obtain ⟨e1, e2, _⟩ := ScrollRight_fields c
    obtain ⟨f1, f2⟩ := ih c.ScrollRight
    simp only [CommitCarousel.scrollRightTimes]
    exact ⟨f1.trans e1, f2.trans e2⟩

/-- C9. For every carousel state with `0 <= cursor <= max(0, len(commits) -
maxVisible)` and every `k`, `k` consecutive `ScrollRight` calls leave
`cursor = min(cursor + k, max(0, len(commits) - maxVisible))`. -/
theorem scrollRight_saturates (c : CommitCarousel) (k : Nat) (h0 : 0 ≤ c.cursor)
    (h1 : c.cursor ≤ max 0 ((c.commits.length : Int) - c.maxVisible)) :
    (c.scrollRightTimes k).cursor
      = min (c.cursor + (k : Int)) (max 0 ((c.commits.length : Int) - c.maxVisible)) := by
  induction k generalizing c with
  | zero =>
    simp only [CommitCarousel.scrollRightTimes]
    omega
  | succ k ih =>
    obtain ⟨e1, e2, _, e4, _⟩ := ScrollRight_fields c
    simp only [CommitCarousel.maxCursor, CommitCarousel.len] at e4
    have hc0 : 0 ≤ c.ScrollRight.cursor := by
      rw [e4]; split_ifs <;> omega
    have hc1 : c.ScrollRight.cursor
        ≤ max 0 ((c.ScrollRight.commits.length : Int) - c.ScrollRight.maxVisible) := by
      rw [e4, e1, e2]; split_ifs <;> omega
    have := ih c.ScrollRight hc0 hc1
    simp only [CommitCarousel.scrollRightTimes]
    rw [this, e4, e1, e2]
    push_cast
    split_ifs <;> omega

/-- C9, on ten records after `UpdateSize(140, 40)`: `maxVisible` is 2 and nine
`ScrollRight` calls leave the cursor at 8. -/
theorem scrollRight_saturates_witness :
    ((NewCommitCarousel.AppendCommits (List.replicate 10 CommitInfo.zero)).UpdateSize 140 40).maxVisible
      = 2 ∧
    (((NewCommitCarousel.AppendCommits (List.replicate 10 CommitInfo.zero)).UpdateSize 140 40).scrollRightTimes
      9).cursor = 8 :=
  ⟨by decide,
   (scrollRight_saturates
      ((NewCommitCarousel.AppendCommits (List.replicate 10 CommitInfo.zero)).UpdateSize 140 40) 9
      (by decide) (by decide)).trans (by decide)⟩

theorem goSlice_length {α : Type} (s v : List α) (lo hi : Int)
    (h : goSlice s lo hi = some v) : (v.length : Int) = hi - lo := by
  simp only [goSlice] at h
  split_ifs at h with h1
  cases h
  simp only [List.length_take, List.length_drop]
  omega

theorem visibleCommits_length (c : CommitCarousel) (v : List CommitInfo)
    (h : c.visibleCommits = some v) (hmv : 0 ≤ c.maxVisible) :
    (v.length : Int) ≤ c.maxVisible := by
  simp only [CommitCarousel.visibleCommits] at h
  split_ifs at h with h0 h1
  · cases h
    simpa using hmv
  · have := goSlice_length _ _ _ _ h
    omega
  · have := goSlice_length _ _ _ _ h
    omega

theorem wrapInt64_le (x : Int) (h : 0 ≤ x) : wrapInt64 x ≤ x := by
  simp only [wrapInt64]
  omega

/-- The layout arithmetic of `Render`: when `width` is `w >= 70` and
`maxVisible` is what `UpdateSize(w, h)` computes, a window of
`1 <= N <= maxVisible` records gets the spacing `(w - 40*N) / (N + 1)`, which
is at least 15 before the minimum is applied, a connector width of at least
11, and `40*N + (N - 1)*spacing <= w`. -/
theorem renderLayout_spacing (c0 c : CommitCarousel) (w h : Int) (hw : 70 ≤ w)
    (hwidth : c.width = w) (hmv : c.maxVisible = (c0.UpdateSize w h).maxVisible)
    (visible : List CommitInfo) (hne : visible ≠ [])
    (hN : (visible.length : Int) ≤ c.maxVisible) :
    (c.renderLayout visible).spacing
      = (w - 40 * (visible.length : Int)) / ((visible.length : Int) + 1) ∧
    15 ≤ (w - 40 * (visible.length : Int)).tdiv ((visible.length : Int) + 1) ∧
    15 ≤ (c.renderLayout visible).spacing ∧
    11 ≤ (c.renderLayout visible).lineWidth ∧
    40 * (visible.length : Int)
      + ((visible.length : Int) - 1) * (c.renderLayout visible).spacing ≤ w := by
  have e7 := UpdateSize_maxVisible c0 w h
  rw [e7] at hmv
  have hwr := wrapInt64_le (w - 15) (by omega)
  have hq : (wrapInt64 (w - 15)).tdiv 55 ≤ (w - 15) / 55 := by
    rcases lt_or_le (wrapInt64 (w - 15)) 0 with hn | hp
    · have := tdiv_fiftyfive_neg _ hn
      omega
    · rw [tdiv_fiftyfive_nonneg _ hp]
      omega
  have hlen : 1 ≤ (visible.length : Int) := by
    cases visible with
    | nil => exact absurd rfl hne
    | cons a t => simp only [List.length_cons]; push_cast; omega
  have hline : (c.renderLayout visible).lineWidth = (c.renderLayout visible).spacing - 4 := by
    simp only [CommitCarousel.renderLayout]
  have hsp0 : (c.renderLayout visible).spacing
      = (if (w - 40 * (visible.length : Int)).tdiv ((visible.length : Int) + 1) < 15 then 15
         else (w - 40 * (visible.length : Int)).tdiv ((visible.length : Int) + 1)) := by
    simp only [CommitCarousel.renderLayout, CommitBox.GetWidth, boxWidth, hwidth]
  rw [hline, hsp0]
  generalize (visible.length : Int) = N at hN hlen ⊢
  have h55 : 55 * N ≤ w - 15 := by omega
  have hnum : 0 ≤ w - 40 * N := by omega
  have hden : 0 < N + 1 := by omega
  have htd : (w - 40 * N).tdiv (N + 1) = (w - 40 * N) / (N + 1) :=
    Int.tdiv_eq_ediv hnum (by omega)
  have hs15 : 15 ≤ (w - 40 * N) / (N + 1) := by
    apply Int.le_ediv_of_mul_le hden
    omega
  have hmul : (w - 40 * N) / (N + 1) * (N + 1) ≤ w - 40 * N := Int.ediv_mul_le _ (by omega)
  rw [htd, if_neg (by omega)]
  generalize (w - 40 * N) / (N + 1) = sp at hs15 hmul ⊢
  refine ⟨rfl, hs15, hs15, by omega, ?_⟩
  nlinarith

theorem gradient_render_length (p : FloatPlatform) (a b : String) (w : Int) (hw : 0 < w)
    (ha : (hexToRGB a).isSome = true) (hb : (hexToRGB b).isSome = true) :
    ((NewGradientLine a b w).Render p).map List.length = some w.toNat := by
  obtain ⟨⟨r1, g1, b1⟩, h1⟩ := Option.isSome_iff_exists.mp ha
  obtain ⟨⟨r2, g2, b2⟩, h2⟩ := Option.isSome_iff_exists.mp hb
  simp only [GradientLine.Render, NewGradientLine, h1, h2, if_neg (not_le.mpr hw),
    Option.map_some']
  rw [List.length_map, List.length_range]

theorem rowElements_three (p : FloatPlatform) (c : CommitCarousel) (lineWidth row : Int)
    (x y z : CommitInfo) (l1 l2 : List String)
    (h1 : (NewGradientLine x.Color y.Color lineWidth).Render p = some l1)
    (h2 : (NewGradientLine y.Color z.Color lineWidth).Render p = some l2) :
    c.rowElements p lineWidth row 0 [x, y, z]
      = some (if row = dotLine + 1 then
          [RowElement.boxLine x (c.isSelected 0) row, RowElement.connector l1,
           RowElement.boxLine y (c.isSelected 1) row, RowElement.connector l2,
           RowElement.boxLine z (c.isSelected 2) row]
        else
          [RowElement.boxLine x (c.isSelected 0) row, RowElement.blanks (lineWidth + 4),
           RowElement.boxLine y (c.isSelected 1) row, RowElement.blanks (lineWidth + 4),
           RowElement.boxLine z (c.isSelected 2) row]) := by
  by_cases hr : row = dotLine + 1
  · simp [CommitCarousel.rowElements, hr, h1, h2]
  · simp [CommitCarousel.rowElements, hr]

/-- C10. The row that `Render` composes does not fit the viewport. At width
180 `UpdateSize` allows three cards and `Render` computes spacing 15 and
connector width 11; on the connector row every gap is two blanks, eleven
segments of three runes each and two blanks, 37 columns instead of 15, so with
cards of `40 + border` columns the row takes `194 + 3*border` columns, more
than 180 for every border, while the other rows take `150 + 3*border`. -/
theorem connector_row_exceeds_viewport (p : FloatPlatform) (border : Nat) :
    wideCarousel.width = 180 ∧
    wideCarousel.maxVisible = 3 ∧
    wideCarousel.visibleCommits = some threeRecords ∧
    (wideCarousel.renderLayout threeRecords).spacing = 15 ∧
    (wideCarousel.renderLayout threeRecords).lineWidth = 11 ∧
    (wideCarousel.rowElements p (wideCarousel.renderLayout threeRecords).lineWidth
        (dotLine + 1) 0 threeRecords).map (rowColumns (boxWidth + (border : Int)))
      = some (194 + 3 * (border : Int)) ∧
    (wideCarousel.rowElements p (wideCarousel.renderLayout threeRecords).lineWidth
        dotLine 0 threeRecords).map (rowColumns (boxWidth + (border : Int)))
      = some (150 + 3 * (border : Int)) ∧
    wideCarousel.width < 194 + 3 * (border : Int) := by
  have hlw : (wideCarousel.renderLayout threeRecords).lineWidth = 11 := by decide
  have h3 : threeRecords
      = [threeCommits.commitInfoOf (synthCommit 1), threeCommits.commitInfoOf (synthCommit 2),
         threeCommits.commitInfoOf (synthCommit 3)] := by decide
  have hc1 : (threeCommits.commitInfoOf (synthCommit 1)).Color = "#000000" := by decide
  have hc2 : (threeCommits.commitInfoOf (synthCommit 2)).Color = "#000000" := by decide
  have hc3 : (threeCommits.commitInfoOf (synthCommit 3)).Color = "#000000" := by decide
  have hx : (hexToRGB "#000000").isSome = true := by decide
  obtain ⟨l, hl, hlen1⟩ := Option.map_eq_some'.mp
    (gradient_render_length p "#000000" "#000000" 11 (by decide) hx hx)
  have hlen2 : l.length = 11 := hlen1
  have hseg : segmentText.length = 3 := by decide
  have hw : wideCarousel.width = 180 := by decide
  refine ⟨hw, by decide, by decide, by decide, hlw, ?_, ?_, ?_⟩
  · rw [hlw, h3, rowElements_three p wideCarousel 11 (dotLine + 1) _ _ _ l l
      (by rw [hc1, hc2]; exact hl) (by rw [hc2, hc3]; exact hl)]
    simp only [if_true, Option.map_some', rowColumns, List.map_cons, List.map_nil,
      RowElement.columns, List.sum_cons, List.sum_nil, hlen2, hseg, boxWidth]
    congr 1
    push_cast
    omega
  · rw [hlw, h3, rowElements_three p wideCarousel 11 dotLine _ _ _ l l
      (by rw [hc1, hc2]; exact hl) (by rw [hc2, hc3]; exact hl)]
    have hd : ¬ dotLine = dotLine + 1 := by decide
    simp only [if_neg hd, Option.map_some', rowColumns, List.map_cons, List.map_nil,
      RowElement.columns, List.sum_cons, List.sum_nil, boxWidth]
    congr 1
    omega
  · rw [hw]
    omega

/-! ## History loader: shared lemmas -/

theorem freshIn_nil (hs : List String) : freshIn [] hs = distinctInOrder hs := by
  simp [freshIn]

theorem freshIn_cons_mem (known hs : List String) (h : String) (hm : h ∈ known) :
    freshIn known (h :: hs) = freshIn known hs := by
  simp only [freshIn, distinctInOrder, List.filter_cons, List.filter_filter]
  have : decide (h ∉ known) = false := by simpa using hm
  rw [this]
  simp only [Bool.false_eq_true, if_false]
  apply List.filter_congr
  intro x _
  by_cases hx : x ∈ known
  · simp [hx]
  · have : x ≠ h := fun e => hx (e ▸ hm)
    simp [hx, this]

theorem freshIn_cons_not_mem (known hs : List String) (h : String) (hm : h ∉ known) :
    freshIn known (h :: hs) = h :: freshIn (known ++ [h]) hs := by
  simp only [freshIn, distinctInOrder, List.filter_cons, List.filter_filter]
  have : decide (h ∉ known) = true := by simpa using hm
  rw [this]
  simp only [if_true]
  congr 1
  apply List.filter_congr
  intro x _
  by_cases hx : x ∈ known <;> by_cases hxh : x = h <;> simp [hx, hxh]

theorem distinctInOrder_nodup (hs : List String) : (distinctInOrder hs).Nodup := by
  induction hs with
  | nil => simp [distinctInOrder]
  | cons h hs ih =>
    simp only [distinctInOrder, List.nodup_cons]
    refine ⟨?_, ih.filter _⟩
    simp [List.mem_filter]

theorem loadLoop_spec (r : Repository) (limit : Int) (failure : Option String)
    (es : List Commit) (s : LoadState) (hwf : s.wf limit) :
    pageHashes (CommitIter.forEachFrom (r.loadCallback limit) failure es s).1.commits
      = pageHashes s.commits
        ++ (freshIn (pageHashes s.commits) (es.map Commit.Hash)).take (limit - s.count).toNat ∧
    ((CommitIter.forEachFrom (r.loadCallback limit) failure es s).1.hasMore = true ↔
      ∃ k, k < es.length ∧
        s.count + ((freshIn (pageHashes s.commits) ((es.take k).map Commit.Hash)).length : Int)
          = limit) ∧
    ((CommitIter.forEachFrom (r.loadCallback limit) failure es s).1.hasMore = true →
      ((CommitIter.forEachFrom (r.loadCallback limit) failure es s).1.commits.length : Int)
        = limit) ∧
    (CommitIter.forEachFrom (r.loadCallback limit) failure es s).2
      = (if (CommitIter.forEachFrom (r.loadCallback limit) failure es s).1.hasMore = true
         then some "limit reached" else failure) := by
  induction es generalizing s with
  | nil =>
    obtain ⟨_, _, _, h4⟩ := hwf
    simp [CommitIter.forEachFrom, freshIn, distinctInOrder, h4]
  | cons c cs ih =>
    obtain ⟨h1, h2, h3, h4⟩ := hwf
    by_cases hlim : s.count ≥ limit
    · have hcb : r.loadCallback limit s c = ({ s with hasMore := true }, some "limit reached") := by
        simp only [Repository.loadCallback, if_pos hlim]
      simp only [CommitIter.forEachFrom, hcb]
      have e0 : (limit - s.count).toNat = 0 := by omega
      refine ⟨by simp [e0], ?_, ?_, by simp⟩
      · simp only [true_iff]
        refine ⟨0, by simp, ?_⟩
        simp only [List.take_zero, List.map_nil, freshIn, distinctInOrder, List.filter_nil,
          List.length_nil]
        omega
      · intro _
        omega
    · by_cases hseen : c.Hash ∈ s.seen
      · have hcb : r.loadCallback limit s c = (s, none) := by
          simp only [Repository.loadCallback, if_neg hlim]
          simp [hseen]
        simp only [CommitIter.forEachFrom, hcb]
        have hm : c.Hash ∈ pageHashes s.commits := (h2 _).1 hseen
        obtain ⟨i1, i2, i3, i4⟩ := ih s ⟨h1, h2, h3, h4⟩
        refine ⟨?_, ?_, i3, i4⟩
        · rw [i1, List.map_cons, freshIn_cons_mem _ _ _ hm]
        · rw [i2]
          constructor
          · rintro ⟨k, hk, he⟩
            refine ⟨k + 1, by simp only [List.length_cons]; omega, ?_⟩
            rw [List.take_succ_cons, List.map_cons, freshIn_cons_mem _ _ _ hm]
            exact he
          · rintro ⟨k, hk, he⟩
            cases k with
            | zero =>
              simp only [List.take_zero, List.map_nil, freshIn, distinctInOrder, List.filter_nil,
                List.length_nil] at he
              omega
            | succ k =>
              rw [List.take_succ_cons, List.map_cons, freshIn_cons_mem _ _ _ hm] at he
              exact ⟨k, by simp only [List.length_cons] at hk; omega, he⟩
      · have hcb : r.loadCallback limit s c
            = (LoadState.mk (s.commits ++ [r.commitInfoOf c]) s.hasMore (c.Hash :: s.seen)
                (s.count + 1), none) := by
          simp only [Repository.loadCallback, if_neg hlim]
          simp [hseen]
        simp only [CommitIter.forEachFrom, hcb]
        have hm : c.Hash ∉ pageHashes s.commits := fun h => hseen ((h2 _).2 h)
        have hH : pageHashes (s.commits ++ [r.commitInfoOf c])
            = pageHashes s.commits ++ [c.Hash] := by
          simp [pageHashes, Repository.commitInfoOf]
        have hwf1 : (LoadState.mk (s.commits ++ [r.commitInfoOf c]) s.hasMore (c.Hash :: s.seen)
            (s.count + 1)).wf limit := by
          refine ⟨?_, ?_, ?_, h4⟩
          · simp only [List.length_append, List.length_singleton]
            push_cast
            omega
          · intro h
            simp only [hH, List.mem_cons, List.mem_append, List.mem_singleton, h2 h]
            tauto
          · simp only
            omega
        obtain ⟨i1, i2, i3, i4⟩ := ih _ hwf1
        simp only [hH] at i1 i2
        refine ⟨?_, ?_, i3, i4⟩
        · rw [i1, List.map_cons, freshIn_cons_not_mem _ _ _ hm]
          have e1 : (limit - s.count).toNat = (limit - (s.count + 1)).toNat + 1 := by omega
          rw [e1, List.take_succ_cons]
          simp
        · rw [i2]
          constructor
          · rintro ⟨k, hk, he⟩
            refine ⟨k + 1, by simp only [List.length_cons]; omega, ?_⟩
            rw [List.take_succ_cons, List.map_cons, freshIn_cons_not_mem _ _ _ hm]
            simp only [List.length_cons]
            push_cast
            omega
          · rintro ⟨k, hk, he⟩
            cases k with
            | zero =>
              simp only [List.take_zero, List.map_nil, freshIn, distinctInOrder, List.filter_nil,
                List.length_nil] at he
              omega
            | succ k =>
              rw [List.take_succ_cons, List.map_cons, freshIn_cons_not_mem _ _ _ hm] at he
              simp only [List.length_cons] at he hk
              push_cast at he
              exact ⟨k, by omega, by omega⟩

theorem LoadCommits_ok (r : Repository) (startHash : String) (limit : Int)
    (iter : CommitIter) (page : List CommitInfo) (hasMore : Bool) (r1 : Repository)
    (hlog : r.log (if startHash ≠ "" then NewHash startHash else r.head) = .ok iter)
    (hload : r.LoadCommits startHash limit = .ok (page, hasMore, r1)) :
    0 ≤ limit ∧
    pageHashes page = (distinctInOrder (iter.entries.map Commit.Hash)).take limit.toNat ∧
    (hasMore = true ↔
      ∃ k, k < iter.entries.length ∧
        ((distinctInOrder ((iter.entries.take k).map Commit.Hash)).length : Int) = limit) ∧
    (hasMore = true → (page.length : Int) = limit) := by
  simp only [Repository.LoadCommits, hlog] at hload
  by_cases hneg : limit < 0
  · simp [hneg] at hload
  · simp only [if_neg hneg] at hload
    have hwf : (LoadState.mk [] false [] 0).wf limit := by
      refine ⟨rfl, ?_, by simp only; omega, rfl⟩
      intro h
      simp [pageHashes]
    obtain ⟨i1, i2, i3, _⟩ :=
      loadLoop_spec r limit iter.failure iter.entries (LoadState.mk [] false [] 0) hwf
    simp only [CommitIter.ForEach] at hload
    generalize CommitIter.forEachFrom (r.loadCallback limit) iter.failure iter.entries
      (LoadState.mk [] false [] 0) = res at hload i1 i2 i3
    obtain ⟨s, err⟩ := res
    simp only at hload i1 i2 i3
    split at hload
    · cases hload
    · simp only [Except.ok.injEq, Prod.mk.injEq] at hload
      obtain ⟨hp, hm, _⟩ := hload
      subst hp hm
      refine ⟨by omega, ?_, ?_, i3⟩
      · simpa [pageHashes, freshIn_nil] using i1
      · simpa [pageHashes, freshIn_nil] using i2

theorem LoadCommits_succeeds (r : Repository) (startHash : String) (limit : Int)
    (iter : CommitIter) (hlimit : 0 ≤ limit)
    (hlog : r.log (if startHash ≠ "" then NewHash startHash else r.head) = .ok iter)
    (hfail : iter.failure = none) :
    ∃ page hasMore r1, r.LoadCommits startHash limit = .ok (page, hasMore, r1) := by
  have hwf : (LoadState.mk [] false [] 0).wf limit := by
    refine ⟨rfl, ?_, by simp only; omega, rfl⟩
    intro h
    simp [pageHashes]
  obtain ⟨_, _, _, i4⟩ :=
    loadLoop_spec r limit iter.failure iter.entries (LoadState.mk [] false [] 0) hwf
  simp only [Repository.LoadCommits, hlog, if_neg (not_lt.mpr hlimit), CommitIter.ForEach]
  generalize CommitIter.forEachFrom (r.loadCallback limit) iter.failure iter.entries
    (LoadState.mk [] false [] 0) = res at i4
  obtain ⟨s, err⟩ := res
  simp only at i4
  have hf : Option.filter (fun e => decide (e ≠ "limit reached")) err = none := by
    rw [i4, hfail]
    split_ifs <;> simp [Option.filter]
  simp only [hf]
  exact ⟨_, _, _, rfl⟩

/-- C5. For every source sequence, every start and every page size, a
successful `LoadCommits` returns `hasMore = true` exactly when the page holds
`limit` records and the page was already full at a point where the source
still had an entry to yield: some proper prefix of the source sequence
contains `limit` distinct identities. -/
theorem hasMore_iff_page_full_before_exhaustion (r : Repository) (startHash : String)
    (limit : Int) (iter : CommitIter) (page : List CommitInfo) (hasMore : Bool)
    (r1 : Repository)
    (hlog : r.log (if startHash ≠ "" then NewHash startHash else r.head) = .ok iter)
    (hload : r.LoadCommits startHash limit = .ok (page, hasMore, r1)) :
    hasMore = true ↔
      ((page.length : Int) = limit ∧
        ∃ k, k < iter.entries.length ∧
          ((distinctInOrder ((iter.entries.take k).map Commit.Hash)).length : Int) = limit) := by
  obtain ⟨_, _, h3, h4⟩ := LoadCommits_ok r startHash limit iter page hasMore r1 hlog hload
  constructor
  · intro h
    exact ⟨h4 h, h3.1 h⟩
  · rintro ⟨_, h⟩
    exact h3.2 h

/-- C6. For every source sequence, also one that yields an identity more than
once, and every page size, the page of a successful `LoadCommits` contains no
hash twice, has at most `limit` records, and its hashes are the first `limit`
distinct identities of the source in order of first occurrence (all of them
when the source has fewer). -/
theorem page_is_first_distinct_identities (r : Repository) (startHash : String)
    (limit : Int) (iter : CommitIter) (page : List CommitInfo) (hasMore : Bool)
    (r1 : Repository)
    (hlog : r.log (if startHash ≠ "" then NewHash startHash else r.head) = .ok iter)
    (hload : r.LoadCommits startHash limit = .ok (page, hasMore, r1)) :
    (pageHashes page).Nodup ∧
    (page.length : Int) ≤ limit ∧
    pageHashes page = (distinctInOrder (iter.entries.map Commit.Hash)).take limit.toNat ∧
    ((distinctInOrder (iter.entries.map Commit.Hash)).length ≤ limit.toNat →
      pageHashes page = distinctInOrder (iter.entries.map Commit.Hash)) := by
  obtain ⟨h1, h2, _, _⟩ := LoadCommits_ok r startHash limit iter page hasMore r1 hlog hload
  refine ⟨?_, ?_, h2, ?_⟩
  · rw [h2]
    exact (distinctInOrder_nodup _).sublist (List.take_sublist _ _)
  · have : (pageHashes page).length = page.length := by simp [pageHashes]
    rw [← this, h2, List.length_take]
    omega
  · intro hle
    rw [h2, List.take_of_length_le hle]

/-- C5, on three commits: a page of two is full while a third entry remains,
so `hasMore` is true. -/
theorem hasMore_iff_page_full_before_exhaustion_witness :
    threeCommits.LoadCommits "" 2
      = .ok (expectedLoad threeCommits [synthCommit 1, synthCommit 2] true) ∧
    (true = true ↔
      ((((expectedLoad threeCommits [synthCommit 1, synthCommit 2] true).1).length : Int) = 2 ∧
        ∃ k, k < (synthHistory 3).length ∧
          ((distinctInOrder (((synthHistory 3).take k).map Commit.Hash)).length : Int) = 2)) :=
  ⟨rfl,
   hasMore_iff_page_full_before_exhaustion threeCommits "" 2
     { entries := synthHistory 3, failure := none }
     (expectedLoad threeCommits [synthCommit 1, synthCommit 2] true).1 true
     (expectedLoad threeCommits [synthCommit 1, synthCommit 2] true).2.2 rfl rfl⟩

/-- C6, on a source that yields commit 1 twice: the page holds commits 1, 2
and 3 once each. -/
theorem page_is_first_distinct_identities_witness :
    repeatingSource.LoadCommits "" 5
      = .ok (expectedLoad repeatingSource [synthCommit 1, synthCommit 2, synthCommit 3] false) ∧
    pageHashes (expectedLoad repeatingSource [synthCommit 1, synthCommit 2, synthCommit 3] false).1
      = [(synthCommit 1).Hash, (synthCommit 2).Hash, (synthCommit 3).Hash] ∧
    (pageHashes
      (expectedLoad repeatingSource [synthCommit 1, synthCommit 2, synthCommit 3] false).1).Nodup :=
  ⟨rfl, rfl,
   (page_is_first_distinct_identities repeatingSource "" 5
     { entries := [synthCommit 1, synthCommit 2, synthCommit 1, synthCommit 3], failure := none }
     (expectedLoad repeatingSource [synthCommit 1, synthCommit 2, synthCommit 3] false).1 false
     (expectedLoad repeatingSource [synthCommit 1, synthCommit 2, synthCommit 3] false).2.2
     rfl rfl).1⟩

/-- C1. On a linear history of 45 distinct commits the three fetches that
`loadMoreCommits` performs return entries 1 to 20 (`hasMore` true), entries 20
to 39 (`hasMore` true) and entries 39 to 45 (seven records, `hasMore` false):
each later page starts with the last record of the page before it, so entries
20 and 39 are fetched twice and the carousel ends up holding 47 records. -/
theorem paging_refetches_resume_point :
    pageSummary session45.fetchRound.2 = some (entryHashes (synthHistory 45) 0 20, true) ∧
    pageSummary session45.fetchRound.1.fetchRound.2
      = some (entryHashes (synthHistory 45) 19 20, true) ∧
    pageSummary session45.fetchRound.1.fetchRound.1.fetchRound.2
      = some (entryHashes (synthHistory 45) 38 7, false) ∧
    session45.fetchRound.1.fetchRound.1.fetchRound.1.carousel.commits.length = 47 ∧
    session45.fetchRound.1.fetchRound.1.fetchRound.1.hasMore = false := by
  refine ⟨?_, ?_, ?_, ?_, ?_⟩ <;> rfl

/-! ## Gradient line -/

theorem rgbToHex_same_ne_red (n : Int) : rgbToHex n n n ≠ "#ff0000" := by
  intro h
  have h1 : (rgbToHex n n n).data = ['#', 'f', 'f', '0', '0', '0', '0'] := by rw [h]
  simp only [rgbToHex, String.data_append] at h1
  generalize (fmt02x n).data = d at h1
  have hl := congrArg List.length h1
  simp only [List.length_append, List.length_cons, List.length_nil] at hl
  match d, h1, hl with
  | [a, b], h1, _ =>
    simp only [List.cons_append, List.nil_append, List.cons.injEq] at h1
    obtain ⟨_, ha, _, ha2, _⟩ := h1
    rw [ha] at ha2
    exact absurd ha2 (by decide)
  | [], _, hl => simp at hl
  | [_], _, hl => simp at hl
  | _ :: _ :: _ :: _, _, hl =>
    simp only [List.length_cons] at hl
    omega

theorem zero_div_zero_is_nan (p : FloatPlatform) :
    (Float64.ofInt ((0 : Nat) : Int)).div p (Float64.ofInt (1 - 1)) = Float64.nan := by
  simp [Float64.ofInt, Float64.div]

theorem interpolateColor_nan (p : FloatPlatform) (startR startG startB endR endG endB : Int) :
    interpolateColor p startR startG startB endR endG endB Float64.nan
      = (p.intOfInvalid, p.intOfInvalid, p.intOfInvalid) := rfl

theorem render_width_one (p : FloatPlatform) :
    (NewGradientLine "#ff0000" "#0000ff" 1).Render p
      = some [rgbToHex p.intOfInvalid p.intOfInvalid p.intOfInvalid] := by
  have hs : hexToRGB "#ff0000" = some (255, 0, 0) := by decide
  have he : hexToRGB "#0000ff" = some (0, 0, 255) := by decide
  have hr : List.range (1 : Int).toNat = [0] := by decide
  simp only [GradientLine.Render, NewGradientLine, hs, he, hr, List.map_cons, List.map_nil,
    zero_div_zero_is_nan, interpolateColor_nan]
  rfl

/-- C7. A gradient of width 1 divides zero by zero: on every platform the one
segment of `NewGradientLine("#ff0000", "#0000ff", 1)` is coloured by the
integer that converting NaN yields, in all three channels, which is not the
start colour; with the conversion of amd64 the colour string is not even a
colour. -/
theorem one_step_gradient_is_not_start_colour (p : FloatPlatform) :
    (NewGradientLine "#ff0000" "#0000ff" 1).Render p
      = some [rgbToHex p.intOfInvalid p.intOfInvalid p.intOfInvalid] ∧
    (NewGradientLine "#ff0000" "#0000ff" 1).Render p ≠ some ["#ff0000"] ∧
    (NewGradientLine "#ff0000" "#0000ff" 1).Render amd64
      = some ["#-8000000000000000-8000000000000000-8000000000000000"] := by
  refine ⟨render_width_one p, ?_, ?_⟩
  · rw [render_width_one p]
    intro h
    simp only [Option.some.injEq, List.cons.injEq, and_true] at h
    exact rgbToHex_same_ne_red _ h
  · rw [render_width_one amd64]
    decide

end GoGitTui
